import Mathlib

/-!
# Verification of the ACE-Space document extraction / enrichment pipeline

Shallow embedding of the core of the repository `The-ACE-Space-09`:
the fixed-window chunking used by the text/DOCX/PDF extractors, the
extension-based extraction router (`merofunctions/extractors/main_extractor.py`),
the chunk normalizer `get_chunks`, the text-cleaning passes, the retry loops
(`safe_upsert`, `call_openai_embedding`, `azure_ner`) and the per-file
aggregation in `process_blob` (`function_app.py`).

Text is modelled as `List Char`.  The character classes of the Python
source (the regex classes for word and whitespace characters, `str.strip`,
`str.lower`) are modelled on their ASCII core, which is the fragment exercised
by every claim below; the fixed punctuation allow-lists are copied verbatim.
External collaborators (document-intelligence service, OCR, the NER and
embedding HTTP endpoints, the document store) are modelled as oracles giving
the outcome of each attempted call, so that the retry / dispatch / aggregation
logic of the source is embedded exactly while the network is abstract.
-/

namespace AceSpace

/-! ## Character classes

Python regex class `\s` and `str.strip` whitespace (ASCII core), and the
regex class `\w` (ASCII core: alphanumeric or underscore). -/

def isPySpace (c : Char) : Bool :=
  c = ' ' || c = '\t' || c = '\n' || c = '\r' || c = '\x0B' || c = '\x0C'

def isWordChar (c : Char) : Bool :=
  c.isAlphanum || c = '_'

/-- The punctuation kept by the cleaning regex of `text_handler.py`,
`pdf_extractor.py`, `docx_extractor.py` and `image_ocr.py`:
period comma hyphen en-dash em-dash colon semicolon bang question
parens quote marks percent and the three currency signs. -/
def mainPunct : List Char :=
  ['.', ',', '-', '–', '—', ':', ';', '!', '?', '(', ')', '\'', '"', '%', '€', '$', '£']

/-- The much smaller allow-list of `csv_json_handler.py`: period comma hyphen. -/
def csvPunct : List Char := ['.', ',', '-']

def allowMain (c : Char) : Bool :=
  isWordChar c || isPySpace c || mainPunct.contains c

def allowCsv (c : Char) : Bool :=
  isWordChar c || isPySpace c || csvPunct.contains c

/-! ## Text cleaning

`clean_text` in the source is two regex substitutions applied in this order:
first `text.strip()` and collapsing of every whitespace run to a single
space, then deletion of every character outside the allow-list. -/

/-- `str.strip()`: drop whitespace from both ends. -/
def stripPy (l : List Char) : List Char :=
  (l.dropWhile isPySpace).rdropWhile isPySpace

/-- One pass of the whitespace-collapsing substitution: each maximal run of
whitespace becomes a single space.  The boolean records whether the previous
character was whitespace (in which case further whitespace is dropped). -/
def collapseWsAux : Bool → List Char → List Char
  | _, [] => []
  | prevWs, c :: cs =>
    if isPySpace c then
      if prevWs then collapseWsAux true cs
      else ' ' :: collapseWsAux true cs
    else c :: collapseWsAux false cs

def collapseWs (l : List Char) : List Char := collapseWsAux false l

/-- `clean_text` of `text_handler.py` / `pdf_extractor.py` / `docx_extractor.py`
/ `image_ocr.py`: strip, collapse whitespace, then delete every character
outside the main allow-list. -/
def clean_text (l : List Char) : List Char :=
  (collapseWs (stripPy l)).filter allowMain

/-- `clean_text` of `csv_json_handler.py`: identical, with the smaller
allow-list. -/
def clean_text_csv (l : List Char) : List Char :=
  (collapseWs (stripPy l)).filter allowCsv

/-! ## Fixed-window chunking

`text_chunks = [text[i:i+chunk_size] for i in range(0, len(text), chunk_size)]`
appears verbatim in `text_handler.extract_text`, `pdf_extractor.extract_pdf`
and `docx_extractor.extract_docx`.  For a positive `chunk_size` the slice
comprehension is exactly the recursion below (Python raises `ValueError` on a
`range` step of 0, so the `c = 0` branch is never exercised). -/

def chunkSplit (c : Nat) (l : List Char) : List (List Char) :=
  if h : c = 0 ∨ l = [] then []
  else l.take c :: chunkSplit c (l.drop c)
termination_by l.length
decreasing_by
  simp only [not_or] at h
  have h1 : 0 < c := Nat.pos_of_ne_zero h.1
  have h2 : 0 < l.length := List.length_pos.mpr h.2
  simp only [List.length_drop]
  omega

/-- The default `chunk_size` of `extract_text`, `extract_pdf`, `extract_docx`. -/
def default_chunk_size : Nat := 10000

/-! ## Extractor results and the chunk normalizer (`function_app.get_chunks`)

An extractor returns a dict; `get_chunks` probes the optional keys
`"text_chunks"` and `"text"`.  Python truthiness conflates an absent key
(`None`) with an empty list / empty string, which `Option.getD` reproduces.
The keys not probed by any downstream code in the claims (`"tables"`,
`"table"`, `"data"`, `"type"`) are omitted from the record. -/

structure ExtractedData where
  text_chunks : Option (List (List Char))
  text : Option (List Char)
deriving DecidableEq

def get_chunks (d : ExtractedData) : List (List Char) :=
  let chunks := d.text_chunks.getD []
  if chunks ≠ [] then chunks
  else
    let text := d.text.getD []
    if text ≠ [] then [text] else []

/-- `extract_text` (`text_handler.py`) after byte decoding: clean then chunk;
the result dict carries only `"text_chunks"`, no `"text"` key. -/
def extract_text_result (decoded : List Char) (chunk_size : Nat) : ExtractedData :=
  ⟨some (chunkSplit chunk_size (clean_text decoded)), none⟩

/-- `extract_pdf` (`pdf_extractor.py`): the paragraph contents returned by the
layout service are concatenated with no separator, cleaned, then chunked;
only `"text_chunks"` is set. -/
def extract_pdf_result (paragraphs : List (List Char)) (chunk_size : Nat) : ExtractedData :=
  ⟨some (chunkSplit chunk_size (clean_text paragraphs.flatten)), none⟩

/-- `extract_docx` (`docx_extractor.py`): paragraphs whose text strips to
nonempty are joined with a single space, cleaned, then chunked; only
`"text_chunks"` is set. -/
def extract_docx_result (paragraphs : List (List Char)) (chunk_size : Nat) : ExtractedData :=
  ⟨some (chunkSplit chunk_size
    (clean_text (List.intercalate [' ']
      (paragraphs.filter (fun p => !(stripPy p).isEmpty))))), none⟩

/-- `extract_csv` (`csv_json_handler.py`): the rendered table string is
cleaned with the csv allow-list; the dict carries `"text"` (and `"table"`),
never `"text_chunks"`. -/
def extract_csv_result (rendered : List Char) : ExtractedData :=
  ⟨none, some (clean_text_csv rendered)⟩

/-- `extract_json` (`csv_json_handler.py`): the pretty-printed JSON is cleaned
with the csv allow-list; the dict carries `"text"` (and `"data"`), never
`"text_chunks"`. -/
def extract_json_result (pretty : List Char) : ExtractedData :=
  ⟨none, some (clean_text_csv pretty)⟩

/-- `extract_image_ocr` (`image_ocr.py`): the OCR text is cleaned with the
main allow-list; the dict carries `"text"` (and `"tables"`), never
`"text_chunks"`. -/
def extract_image_result (raw : List Char) : ExtractedData :=
  ⟨none, some (clean_text raw)⟩

/-! ## The extraction router (`main_extractor.extract_file`)

`extension = blob_name.lower().split('.')[-1]` followed by an if/elif chain.
`splitOnDot` models `str.split` with a one-character separator exactly
(in particular it never returns an empty list, and a trailing separator
yields a final empty segment). -/

def splitOnChar (sep : Char) : List Char → List (List Char)
  | [] => [[]]
  | c :: cs =>
    if c = sep then [] :: splitOnChar sep cs
    else
      match splitOnChar sep cs with
      | [] => [[c]]
      | g :: gs => (c :: g) :: gs

def extensionOf (name : List Char) : List Char :=
  (splitOnChar '.' (name.map Char.toLower)).getLastD []

/-- Python truthiness of an optional string: `None` and the empty string are
both falsy. -/
def falsyOpt (o : Option (List Char)) : Bool :=
  (o.getD []).isEmpty

inductive ExtractorKind where
  | pdf
  | docx
  | image
  | csv
  | json
  | text
deriving DecidableEq

inductive ExtractError where
  | unsupportedFormat (ext : List Char)
  | missingCredentials
deriving DecidableEq

/-- The dispatch of `extract_file`.  `Except.ok k` means the extractor of kind
`k` is invoked on the blob bytes (in particular, for `k = .pdf`, that the
document-intelligence client is constructed inside `extract_pdf`); an
`Except.error` is raised before any extractor runs and before any client is
constructed. -/
def extract_file (blob_name : List Char)
    (doc_intel_endpoint doc_intel_key : Option (List Char)) :
    Except ExtractError ExtractorKind :=
  let extension := extensionOf blob_name
  if extension = "pdf".toList then
    if falsyOpt doc_intel_endpoint || falsyOpt doc_intel_key then
      Except.error ExtractError.missingCredentials
    else Except.ok ExtractorKind.pdf
  else if extension = "docx".toList then Except.ok ExtractorKind.docx
  else if extension = "jpg".toList ∨ extension = "jpeg".toList ∨
      extension = "png".toList ∨ extension = "bmp".toList ∨
      extension = "svg".toList then Except.ok ExtractorKind.image
  else if extension = "csv".toList then Except.ok ExtractorKind.csv
  else if extension = "json".toList then Except.ok ExtractorKind.json
  else if extension = "txt".toList then Except.ok ExtractorKind.text
  else Except.error (ExtractError.unsupportedFormat extension)

/-! ## Substring tests (Python `in` on strings)

Used by the retry loops to recognize throttling messages. -/

def startsWithPat : List Char → List Char → Bool
  | [], _ => true
  | _ :: _, [] => false
  | p :: ps, c :: cs => p = c && startsWithPat ps cs

def containsPat (s pat : List Char) : Bool :=
  if startsWithPat pat s then true
  else
    match s with
    | [] => false
    | _ :: cs => containsPat cs pat

/-- `"Request rate is large" in error_msg or "429" in error_msg`
(`safe_upsert`). -/
def isCosmosThrottle (msg : List Char) : Bool :=
  containsPat msg "Request rate is large".toList || containsPat msg "429".toList

/-- `"429" in error_msg or "Rate limit" in error_msg`
(`call_openai_embedding`). -/
def isOpenAIThrottle (msg : List Char) : Bool :=
  containsPat msg "429".toList || containsPat msg "Rate limit".toList

/-! ## Retry loops of `function_app.py`

Each loop is `for attempt in range(max_retries)`, with the collaborator
modelled as an oracle from the attempt number to that attempt's outcome.
The embedding below is fuel-indexed: at state `(attempt, fuel)` the loop has
`fuel` iterations left, so the entry point runs it at `(0, max_retries)`.
A trace records the final result, the number of collaborator invocations and
the sequence of sleep durations, in order. -/

instance {ε α : Type} [DecidableEq ε] [DecidableEq α] : DecidableEq (Except ε α) := fun x y =>
  match x, y with
  | Except.ok a, Except.ok b =>
    if h : a = b then isTrue (by rw [h]) else isFalse (fun he => by cases he; exact h rfl)
  | Except.error a, Except.error b =>
    if h : a = b then isTrue (by rw [h]) else isFalse (fun he => by cases he; exact h rfl)
  | Except.ok _, Except.error _ => isFalse (fun he => by cases he)
  | Except.error _, Except.ok _ => isFalse (fun he => by cases he)

structure RetryTrace (α : Type) where
  result : Except (List Char) α
  calls : Nat
  sleeps : List Nat
deriving DecidableEq

/-- `safe_upsert` collaborator outcome: `none` is a successful
`container.upsert_item`, `some msg` an exception with message `msg`. -/
def safe_upsertLoop (beh : Nat → Option (List Char)) (delay : Nat) :
    Nat → Nat → RetryTrace Unit
  | _, 0 => ⟨Except.error "Cosmos DB upsert failed after all retries".toList, 0, []⟩
  | attempt, fuel + 1 =>
    match beh attempt with
    | none => ⟨Except.ok (), 1, []⟩
    | some msg =>
      if isCosmosThrottle msg then
        let r := safe_upsertLoop beh delay (attempt + 1) fuel
        ⟨r.result, r.calls + 1, delay * (attempt + 1) :: r.sleeps⟩
      else ⟨Except.error msg, 1, []⟩

def safe_upsert (beh : Nat → Option (List Char)) (max_retries delay : Nat) :
    RetryTrace Unit :=
  safe_upsertLoop beh delay 0 max_retries

/-- Default arguments of `safe_upsert` and `call_openai_embedding`:
`max_retries=3, delay=2`. -/
def default_max_retries : Nat := 3

def default_delay : Nat := 2

/-- Embedding collaborator outcome for one attempt on a given (capped)
input. -/
inductive EmbedResp where
  | ok (embedding : List Int)
  | exn (msg : List Char)

def call_openai_embeddingLoop (beh : Nat → List Char → EmbedResp)
    (chunk : List Char) (delay : Nat) : Nat → Nat → RetryTrace (List Int)
  | _, 0 => ⟨Except.error "OpenAI embedding failed after all retries".toList, 0, []⟩
  | attempt, fuel + 1 =>
    match beh attempt (chunk.take 8000) with
    | EmbedResp.ok v => ⟨Except.ok v, 1, []⟩
    | EmbedResp.exn msg =>
      if isOpenAIThrottle msg then
        let r := call_openai_embeddingLoop beh chunk delay (attempt + 1) fuel
        ⟨r.result, r.calls + 1, delay * (attempt + 1) :: r.sleeps⟩
      else ⟨Except.error msg, 1, []⟩

/-- `call_openai_embedding`: an empty or whitespace-only chunk returns `[]`
without any API call; otherwise the retry loop runs on `chunk[:8000]`. -/
def call_openai_embedding (chunk : List Char) (beh : Nat → List Char → EmbedResp)
    (max_retries delay : Nat) : RetryTrace (List Int) :=
  if (stripPy chunk).isEmpty then ⟨Except.ok [], 0, []⟩
  else call_openai_embeddingLoop beh chunk delay 0 max_retries

/-! ## `azure_ner` -/

structure Entity where
  text : List Char
  label : List Char
deriving DecidableEq

/-- One attempt of the NER POST: either an HTTP response with a status code
and (for successful responses) the entities parsed from its body, or a
`requests.RequestException` carrying a message. -/
inductive NerResponse where
  | http (status : Nat) (entities : List Entity)
  | netError (msg : List Char)

/-- The status code of an attempt that produced an HTTP response (`none` for
a request exception). -/
def statusOf : NerResponse → Option Nat
  | NerResponse.http s _ => some s
  | NerResponse.netError _ => none

structure NerLoopOut where
  result : Option (List Entity)
  lastError : Option (List Char)
  calls : Nat
  sleeps : List Nat
deriving DecidableEq

/-- Decimal rendering of a status code, for the `HTTP {status}` message. -/
def natChars (n : Nat) : List Char := (Nat.toDigits 10 n)

/-- The `for attempt in range(max_retries)` loop of `azure_ner`.
`response.ok` is `status < 400`; a 429 sleeps `delay * (attempt + 1)` and
retries; any other non-ok status breaks out of the loop immediately; a
request exception sleeps a flat `delay` (unless on the final attempt) and
retries. -/
def azure_nerLoop (resp : Nat → NerResponse) (delay : Nat) :
    Nat → Nat → NerLoopOut
  | _, 0 => ⟨none, none, 0, []⟩
  | attempt, fuel + 1 =>
    match resp attempt with
    | NerResponse.http status entities =>
      if status < 400 then ⟨some entities, none, 1, []⟩
      else if status = 429 then
        let r := azure_nerLoop resp delay (attempt + 1) fuel
        ⟨r.result,
          (match r.lastError with
            | some e => some e
            | none => some ("Rate limit: 429".toList)),
          r.calls + 1, delay * (attempt + 1) :: r.sleeps⟩
      else ⟨none, some ("HTTP ".toList ++ natChars status), 1, []⟩
    | NerResponse.netError msg =>
      let r := azure_nerLoop resp delay (attempt + 1) fuel
      ⟨r.result,
        (match r.lastError with
          | some e => some e
          | none => some msg),
        r.calls + 1,
        (if 0 < fuel then [delay] else []) ++ r.sleeps⟩

structure NerConfig where
  endpoint : Option (List Char)
  key : Option (List Char)

/-- `azure_ner`: with absent/empty credentials the function logs and returns
`[]` without any HTTP call; otherwise the loop runs and, if it did not
return entities, the function raises
`Azure NER failed after all retries: {last_error}`.  The second component
counts the HTTP requests issued. -/
def azure_ner (cfg : NerConfig) (resp : Nat → NerResponse)
    (max_retries delay : Nat) : Except (List Char) (List Entity) × Nat :=
  if falsyOpt cfg.endpoint || falsyOpt cfg.key then (Except.ok [], 0)
  else
    let r := azure_nerLoop resp delay 0 max_retries
    match r.result with
    | some es => (Except.ok es, r.calls)
    | none =>
      (Except.error ("Azure NER failed after all retries: ".toList ++
        (r.lastError.getD "None".toList)), r.calls)

/-! ## Per-file aggregation in `process_blob`

After extraction, `chunks = get_chunks(extracted_data)`; an empty list raises
`No chunks extracted`.  The per-chunk loop skips (and records as an error)
any chunk that is empty or whitespace-only; otherwise the chunk succeeds
exactly when its NER + embedding + upsert calls all succeed, which the
embedding abstracts as an oracle `ok` from the chunk index.  After the loop,
`successful_chunks == 0` raises `All chunks failed`; a failure rate strictly
above one half only logs a warning (`high_failure_warning`) and the function
still returns normally. -/

structure BlobSummary where
  successful_chunks : Nat
  high_failure_warning : Bool
deriving DecidableEq

def chunkSucceeds (ok : Nat → Bool) (p : Nat × List Char) : Bool :=
  !(stripPy p.2).isEmpty && ok p.1

def successful_chunks (chunks : List (List Char)) (ok : Nat → Bool) : Nat :=
  (chunks.enum.filter (chunkSucceeds ok)).length

def process_blob_core (chunks : List (List Char)) (ok : Nat → Bool) :
    Except (List Char) BlobSummary :=
  if chunks.isEmpty then Except.error "No chunks extracted".toList
  else
    let succ := successful_chunks chunks ok
    if succ = 0 then Except.error "All chunks failed".toList
    else Except.ok ⟨succ, decide (2 * (chunks.length - succ) > chunks.length)⟩

def exceptIsOk {ε α : Type} : Except ε α → Bool
  | Except.ok _ => true
  | Except.error _ => false

/-! ## Predicates used by the cleaning claims -/

def noTwoWs : List Char → Bool
  | c :: d :: rest => (!(isPySpace c && isPySpace d)) && noTwoWs (d :: rest)
  | _ => true

def headWs : List Char → Bool
  | [] => false
  | c :: _ => isPySpace c

def lastWs (l : List Char) : Bool :=
  (l.getLast?.map isPySpace).getD false

/-! ## Helper lemmas: chunking -/

theorem chunkSplit_nil (c : Nat) : chunkSplit c [] = [] := by
  rw [chunkSplit]; simp

theorem chunkSplit_flatten (c : Nat) (hc : c ≠ 0) (l : List Char) :
    (chunkSplit c l).flatten = l := by
  induction l using chunkSplit.induct c with
  | case1 l h =>
    rcases h with h | h
    · exact absurd h hc
    · subst h; rw [chunkSplit]; simp
  | case2 l h ih =>
    rw [chunkSplit, dif_neg h, List.flatten_cons, ih, List.take_append_drop]

theorem chunkSplit_dropLast_length (c : Nat) (l : List Char) :
    ∀ s ∈ (chunkSplit c l).dropLast, s.length = c := by
  induction l using chunkSplit.induct c with
  | case1 l h => rw [chunkSplit, dif_pos h]; simp
  | case2 l h ih =>
    rw [chunkSplit, dif_neg h]
    simp only [not_or] at h
    intro s hs
    by_cases hrest : chunkSplit c (l.drop c) = []
    · rw [hrest] at hs; simp at hs
    · rw [List.dropLast_cons_of_ne_nil hrest] at hs
      rcases List.mem_cons.mp hs with h1 | h1
      · subst h1
        have hd : l.drop c ≠ [] := by
          intro hd
          rw [chunkSplit, dif_pos (Or.inr hd)] at hrest
          exact hrest rfl
        have hlen : c < l.length := by
          by_contra hle
          push_neg at hle
          exact hd (List.drop_eq_nil_of_le hle)
        simp [List.length_take, Nat.min_eq_left (Nat.le_of_lt hlen)]
      · exact ih s h1

theorem chunkSplit_mem (c : Nat) (hc : c ≠ 0) (l : List Char) :
    ∀ s ∈ chunkSplit c l, s ≠ [] ∧ s.length ≤ c := by
  induction l using chunkSplit.induct c with
  | case1 l h => rw [chunkSplit, dif_pos h]; simp
  | case2 l h ih =>
    rw [chunkSplit, dif_neg h]
    simp only [not_or] at h
    intro s hs
    rcases List.mem_cons.mp hs with h1 | h1
    · subst h1
      constructor
      · simp [List.take_eq_nil_iff, hc, h.2]
      · simp [List.length_take]
    · exact ih s h1

theorem chunkSplit_replicate_step (c n : Nat) (a : Char) (hc : c ≠ 0) (hn : n ≠ 0) :
    chunkSplit c (List.replicate n a) =
      List.replicate (min c n) a :: chunkSplit c (List.replicate (n - c) a) := by
  rw [chunkSplit]
  have hne : List.replicate n a ≠ [] := by
    simp [List.replicate_eq_nil_iff, hn]
  rw [dif_neg (by simp [hc, hne])]
  rw [List.take_replicate, List.drop_replicate]

theorem chunkSplit_map_length_25000 :
    (chunkSplit 10000 (List.replicate 25000 'a')).map List.length = [10000, 10000, 5000] := by
  rw [chunkSplit_replicate_step 10000 25000 'a' (by norm_num) (by norm_num)]
  norm_num
  rw [chunkSplit_replicate_step 10000 15000 'a' (by norm_num) (by norm_num)]
  norm_num
  rw [chunkSplit_replicate_step 10000 5000 'a' (by norm_num) (by norm_num)]
  norm_num
  rw [chunkSplit]
  simp

/-- **C1.**  For every cleaned text and positive chunk size `c`, the
fixed-window chunking used by the text, DOCX and PDF extractors yields
chunks that are each nonempty and of length exactly `c` except possibly
the last (which has length at most `c`), and concatenating the chunks in
order reconstructs the text exactly; in particular a 25,000-character text
with the default `chunk_size = 10000` yields exactly 3 chunks of lengths
10000, 10000, 5000. -/
theorem chunking_reconstructs_text (c : Nat) (l : List Char) (hc : 0 < c) :
    (chunkSplit c l).flatten = l ∧
    (∀ s ∈ (chunkSplit c l).dropLast, s.length = c) ∧
    (∀ s ∈ chunkSplit c l, s ≠ [] ∧ s.length ≤ c) ∧
    (chunkSplit default_chunk_size (List.replicate 25000 'a')).map List.length =
      [10000, 10000, 5000] := by
  refine ⟨chunkSplit_flatten c (Nat.pos_iff_ne_zero.mp hc) l,
    chunkSplit_dropLast_length c l,
    chunkSplit_mem c (Nat.pos_iff_ne_zero.mp hc) l,
    chunkSplit_map_length_25000⟩

/-- Witness for C1 at `c = 2`, `l = "abcde"`. -/
theorem chunking_reconstructs_text_witness :
    0 < 2 ∧ (chunkSplit 2 "abcde".toList).flatten = "abcde".toList :=
  ⟨by decide, (chunking_reconstructs_text 2 "abcde".toList (by decide)).1⟩

/-! ## Claims C2 and C4: the extraction router -/

/-- **C2.**  `extract_file` determines the format from the lower-cased last
dot-segment of the filename; with non-empty document-intelligence
credentials supplied, each supported segment dispatches to the extractor of
the matching kind, and any other segment fails with an unsupported-format
error carrying the segment — an `Except.error`, so no extractor is invoked. -/
theorem extract_file_dispatch (name ep k : List Char) (hep : ep ≠ []) (hk : k ≠ []) :
    (extensionOf name = "pdf".toList →
      extract_file name (some ep) (some k) = Except.ok ExtractorKind.pdf) ∧
    (extensionOf name = "docx".toList →
      extract_file name (some ep) (some k) = Except.ok ExtractorKind.docx) ∧
    ((extensionOf name = "jpg".toList ∨ extensionOf name = "jpeg".toList ∨
      extensionOf name = "png".toList ∨ extensionOf name = "bmp".toList ∨
      extensionOf name = "svg".toList) →
      extract_file name (some ep) (some k) = Except.ok ExtractorKind.image) ∧
    (extensionOf name = "csv".toList →
      extract_file name (some ep) (some k) = Except.ok ExtractorKind.csv) ∧
    (extensionOf name = "json".toList →
      extract_file name (some ep) (some k) = Except.ok ExtractorKind.json) ∧
    (extensionOf name = "txt".toList →
      extract_file name (some ep) (some k) = Except.ok ExtractorKind.text) ∧
    (extensionOf name ∉
        ["pdf".toList, "docx".toList, "jpg".toList, "jpeg".toList, "png".toList,
          "bmp".toList, "svg".toList, "csv".toList, "json".toList, "txt".toList] →
      extract_file name (some ep) (some k) =
        Except.error (ExtractError.unsupportedFormat (extensionOf name))) := by
  have hfe : falsyOpt (some ep) = false := by
    simp [falsyOpt, List.isEmpty_iff, hep]
  have hfk : falsyOpt (some k) = false := by
    simp [falsyOpt, List.isEmpty_iff, hk]
  refine ⟨?_, ?_, ?_, ?_, ?_, ?_, ?_⟩
  · intro h; simp [extract_file, h, hfe, hfk]
  · intro h; simp [extract_file, h]
  · intro h
    rcases h with h | h | h | h | h <;> simp [extract_file, h]
  · intro h; simp [extract_file, h]
  · intro h; simp [extract_file, h]
  · intro h; simp [extract_file, h]
  · intro h
    simp only [List.mem_cons, List.not_mem_nil, or_false, not_or] at h
    obtain ⟨h1, h2, h3, h4, h5, h6, h7, h8, h9, h10⟩ := h
    simp only [extract_file]
    rw [if_neg h1, if_neg h2, if_neg (by push_neg; exact ⟨h3, h4, h5, h6, h7⟩),
      if_neg h8, if_neg h9, if_neg h10]

/-- Witness for C2: a JPEG filename with upper-case extension routes to the
image extractor. -/
theorem extract_file_dispatch_witness :
    extract_file "photo.JPG".toList (some "e".toList) (some "k".toList) =
      Except.ok ExtractorKind.image :=
  (extract_file_dispatch "photo.JPG".toList "e".toList "k".toList
    (by decide) (by decide)).2.2.1 (Or.inl (by decide))

/-- **C4.**  For a filename whose extension is `pdf`, if either credential is
absent (`none`) or empty, `extract_file` fails with the missing-credentials
error: the result is an `Except.error`, so the PDF extractor is never
invoked and no document-intelligence client is constructed (the client is
built inside `extract_pdf`, which only an `Except.ok ExtractorKind.pdf`
dispatch reaches). -/
theorem extract_file_pdf_missing_credentials (name : List Char)
    (ep k : Option (List Char)) (hext : extensionOf name = "pdf".toList)
    (hmiss : ep.getD [] = [] ∨ k.getD [] = []) :
    extract_file name ep k = Except.error ExtractError.missingCredentials := by
  have hf : falsyOpt ep = true ∨ falsyOpt k = true := by
    rcases hmiss with h | h
    · exact Or.inl (by simp [falsyOpt, List.isEmpty_iff, h])
    · exact Or.inr (by simp [falsyOpt, List.isEmpty_iff, h])
  rcases hf with h | h <;> simp [extract_file, hext, h]

/-- Witness for C4: `doc.pdf` with an absent endpoint and a non-empty key. -/
theorem extract_file_pdf_missing_credentials_witness :
    extract_file "doc.pdf".toList none (some "k".toList) =
      Except.error ExtractError.missingCredentials :=
  extract_file_pdf_missing_credentials "doc.pdf".toList none (some "k".toList)
    (by decide) (Or.inl (by decide))

/-! ## Claim C5: the chunk normalizer -/

/-- **C5.**  `get_chunks` returns the `text_chunks` field verbatim when it is
present and non-empty; otherwise the one-element list holding the `text`
field when that is non-empty; otherwise the empty list — together with the
three concrete examples from the specification. -/
theorem get_chunks_normalizes :
    (∀ (d : ExtractedData) (cs : List (List Char)),
      d.text_chunks = some cs → cs ≠ [] → get_chunks d = cs) ∧
    (∀ (d : ExtractedData) (t : List Char),
      (d.text_chunks = none ∨ d.text_chunks = some []) →
      d.text = some t → t ≠ [] → get_chunks d = [t]) ∧
    (∀ d : ExtractedData,
      (d.text_chunks = none ∨ d.text_chunks = some []) →
      (d.text = none ∨ d.text = some []) → get_chunks d = []) ∧
    get_chunks ⟨some ["a".toList, "b".toList], none⟩ = ["a".toList, "b".toList] ∧
    get_chunks ⟨none, some "x".toList⟩ = ["x".toList] ∧
    get_chunks ⟨none, none⟩ = [] := by
  refine ⟨?_, ?_, ?_, by decide, by decide, by decide⟩
  · intro d cs h hne
    simp [get_chunks, h, hne]
  · intro d t hc ht htne
    rcases hc with hc | hc <;> simp [get_chunks, hc, ht, htne]
  · intro d hc ht
    rcases hc with hc | hc <;> rcases ht with ht | ht <;>
      simp [get_chunks, hc, ht]

/-- Witness for C5: a record with both fields set returns its chunks. -/
theorem get_chunks_normalizes_witness :
    get_chunks ⟨some ["a".toList, "b".toList], some "z".toList⟩ =
      ["a".toList, "b".toList] :=
  get_chunks_normalizes.1 ⟨some ["a".toList, "b".toList], some "z".toList⟩
    ["a".toList, "b".toList] rfl (by decide)

/-! ## Claims C3 and C9: per-file aggregation in `process_blob` -/

/-- **C3.**  For a file with a non-empty chunk sequence, `process_blob`
raises a fatal error iff every chunk fails (a chunk succeeds iff it is not
whitespace-only and its enrichment and upsert succeed); when at least one
chunk succeeds and more than half fail, it returns normally with the
high-failure warning logged; in particular 4 chunks with exactly 1 success
return normally with `successful_chunks = 1`. -/
theorem process_blob_aggregation (chunks : List (List Char)) (ok : Nat → Bool)
    (hne : chunks ≠ []) :
    (exceptIsOk (process_blob_core chunks ok) = false ↔
      ∀ p ∈ chunks.enum, chunkSucceeds ok p = false) ∧
    (0 < successful_chunks chunks ok →
      2 * (chunks.length - successful_chunks chunks ok) > chunks.length →
      process_blob_core chunks ok =
        Except.ok ⟨successful_chunks chunks ok, true⟩) ∧
    process_blob_core [['a'], ['b'], ['c'], ['d']] (fun i => i == 0) =
      Except.ok ⟨1, true⟩ := by
  have hne2 : chunks.isEmpty = false := by simp [List.isEmpty_iff, hne]
  have hzero : successful_chunks chunks ok = 0 ↔
      ∀ p ∈ chunks.enum, chunkSucceeds ok p = false := by
    rw [successful_chunks, List.length_eq_zero, List.filter_eq_nil]
    simp
  refine ⟨?_, ?_, by decide⟩
  · rw [← hzero]
    by_cases hs : successful_chunks chunks ok = 0 <;>
      simp [process_blob_core, hne2, hs, exceptIsOk]
  · intro h1 h2
    have hsz : successful_chunks chunks ok ≠ 0 := Nat.pos_iff_ne_zero.mp h1
    simp [process_blob_core, hne2, hsz, h2]

/-- Witness for C3: two chunks, both failing, give a non-ok outcome. -/
theorem process_blob_aggregation_witness :
    exceptIsOk (process_blob_core [['a'], ['b']] (fun _ => false)) = false :=
  (process_blob_aggregation [['a'], ['b']] (fun _ => false) (by decide)).1.mpr
    (by decide)

/-- **C9 counterexample.**  The claim says an empty normalized chunk sequence
is treated as a valid, non-error outcome; but `process_blob` raises
`No chunks extracted` on it. -/
theorem process_blob_empty_counterexample :
    process_blob_core [] (fun _ => true) =
      Except.error "No chunks extracted".toList := by decide

/-- **C9 (amended).**  When normalization of an extraction result yields an
empty chunk sequence, `process_blob` raises the `No chunks extracted` error
rather than completing normally. -/
theorem process_blob_empty_raises (d : ExtractedData) (ok : Nat → Bool)
    (h : get_chunks d = []) :
    process_blob_core (get_chunks d) ok =
      Except.error "No chunks extracted".toList := by
  rw [h]; rfl

/-- Witness for C9 (amended) at the empty record. -/
theorem process_blob_empty_raises_witness :
    process_blob_core (get_chunks ⟨none, none⟩) (fun _ => true) =
      Except.error "No chunks extracted".toList :=
  process_blob_empty_raises ⟨none, none⟩ (fun _ => true) (by decide)

/-! ## Claim C7: retry budgets of `safe_upsert` and `call_openai_embedding` -/

theorem safe_upsertLoop_all_throttle (beh : Nat → Option (List Char))
    (m : Nat → List Char) (d : Nat) (hb : ∀ i, beh i = some (m i))
    (hm : ∀ i, isCosmosThrottle (m i) = true) :
    ∀ (fuel attempt : Nat), safe_upsertLoop beh d attempt fuel =
      ⟨Except.error "Cosmos DB upsert failed after all retries".toList, fuel,
        (List.range fuel).map (fun j => d * (attempt + j + 1))⟩ := by
  intro fuel
  induction fuel with
  | zero => intro attempt; rfl
  | succ fuel ih =>
    intro attempt
    rw [safe_upsertLoop, hb attempt]
    simp only [hm attempt, if_true, ih (attempt + 1)]
    refine congrArg (RetryTrace.mk _ (fuel + 1)) ?_
    rw [List.range_succ_eq_map, List.map_cons, List.map_map]
    refine congrArg₂ List.cons (by congr 1 <;> omega) (List.map_congr_left ?_)
    intro j _
    simp only [Function.comp_apply]
    congr 1 <;> omega

theorem embeddingLoop_all_throttle (beh : Nat → List Char → EmbedResp)
    (chunk : List Char) (m : Nat → List Char) (d : Nat)
    (hb : ∀ i, beh i (chunk.take 8000) = EmbedResp.exn (m i))
    (hm : ∀ i, isOpenAIThrottle (m i) = true) :
    ∀ (fuel attempt : Nat), call_openai_embeddingLoop beh chunk d attempt fuel =
      ⟨Except.error "OpenAI embedding failed after all retries".toList, fuel,
        (List.range fuel).map (fun j => d * (attempt + j + 1))⟩ := by
  intro fuel
  induction fuel with
  | zero => intro attempt; rfl
  | succ fuel ih =>
    intro attempt
    rw [call_openai_embeddingLoop, hb attempt]
    simp only [hm attempt, if_true, ih (attempt + 1)]
    refine congrArg (RetryTrace.mk _ (fuel + 1)) ?_
    rw [List.range_succ_eq_map, List.map_cons, List.map_map]
    refine congrArg₂ List.cons (by congr 1 <;> omega) (List.map_congr_left ?_)
    intro j _
    simp only [Function.comp_apply]
    congr 1 <;> omega

/-- **C7.**  For the persistence upsert and the embedding call (default
budget `max_retries = 3`, base delay 2): a collaborator that throttles on
the 1st attempt and succeeds on the 2nd makes the operation succeed after
exactly two invocations (sleeping once, for `delay * 1` seconds); a
collaborator that always signals throttling (429 / rate-limit message) is
invoked exactly `max_retries` times, with linearly increasing sleeps, and
the operation then fails. -/
theorem retry_budgets (beh : Nat → Option (List Char))
    (ebeh : Nat → List Char → EmbedResp) (chunk : List Char)
    (m em : Nat → List Char) (maxR d : Nat) (v : List Int) :
    ((beh 0 = some (m 0) → isCosmosThrottle (m 0) = true → beh 1 = none →
      safe_upsert beh default_max_retries default_delay =
        ⟨Except.ok (), 2, [2]⟩) ∧
     ((∀ i, beh i = some (m i)) → (∀ i, isCosmosThrottle (m i) = true) →
      safe_upsert beh maxR d =
        ⟨Except.error "Cosmos DB upsert failed after all retries".toList, maxR,
          (List.range maxR).map (fun j => d * (j + 1))⟩)) ∧
    (((stripPy chunk).isEmpty = false →
      ebeh 0 (chunk.take 8000) = EmbedResp.exn (em 0) →
      isOpenAIThrottle (em 0) = true →
      ebeh 1 (chunk.take 8000) = EmbedResp.ok v →
      call_openai_embedding chunk ebeh default_max_retries default_delay =
        ⟨Except.ok v, 2, [2]⟩) ∧
     ((stripPy chunk).isEmpty = false →
      (∀ i, ebeh i (chunk.take 8000) = EmbedResp.exn (em i)) →
      (∀ i, isOpenAIThrottle (em i) = true) →
      call_openai_embedding chunk ebeh maxR d =
        ⟨Except.error "OpenAI embedding failed after all retries".toList, maxR,
          (List.range maxR).map (fun j => d * (j + 1))⟩)) := by
  refine ⟨⟨?_, ?_⟩, ?_, ?_⟩
  · intro h0 hm0 h1
    rw [safe_upsert, default_max_retries, default_delay,
      safe_upsertLoop, h0]
    simp only [hm0, if_true, safe_upsertLoop, h1]
  · intro hb hm
    rw [safe_upsert, safe_upsertLoop_all_throttle beh m d hb hm maxR 0]
    refine congrArg (RetryTrace.mk _ maxR) (List.map_congr_left ?_)
    intro j _
    congr 1 <;> omega
  · intro hch h0 hm0 h1
    rw [call_openai_embedding, hch]
    simp only [Bool.false_eq_true, if_false, default_max_retries, default_delay,
      call_openai_embeddingLoop, h0]
    simp only [hm0, if_true, call_openai_embeddingLoop, h1]
  · intro hch hb hm
    rw [call_openai_embedding, hch]
    simp only [Bool.false_eq_true, if_false,
      embeddingLoop_all_throttle ebeh chunk em d hb hm maxR 0]
    refine congrArg (RetryTrace.mk _ maxR) (List.map_congr_left ?_)
    intro j _
    congr 1 <;> omega

/-- Witness for C7: a Cosmos collaborator throttling once then succeeding,
and an embedding collaborator that always hits the rate limit with
`max_retries = 2`. -/
theorem retry_budgets_witness :
    safe_upsert (fun i => if i = 0 then some "429".toList else none) 3 2 =
      ⟨Except.ok (), 2, [2]⟩ ∧
    call_openai_embedding "hi".toList (fun _ _ => EmbedResp.exn "Rate limit".toList) 2 2 =
      ⟨Except.error "OpenAI embedding failed after all retries".toList, 2, [2, 4]⟩ := by
  constructor
  · exact ((retry_budgets (fun i => if i = 0 then some "429".toList else none)
      (fun _ _ => EmbedResp.exn "Rate limit".toList) "hi".toList
      (fun _ => "429".toList) (fun _ => "Rate limit".toList) 2 2 []).1).1
      rfl (by decide) rfl
  · have h := ((retry_budgets (fun i => if i = 0 then some "429".toList else none)
      (fun _ _ => EmbedResp.exn "Rate limit".toList) "hi".toList
      (fun _ => "429".toList) (fun _ => "Rate limit".toList) 2 2 []).2).2
      (by decide) (fun _ => rfl) (fun _ => by decide)
    rw [h]
    decide

/-! ## Claim C6: the `azure_ner` retry policy -/

theorem azure_nerLoop_all_429 (resp : Nat → NerResponse) (d : Nat) :
    ∀ (fuel attempt : Nat),
      (∀ i, attempt ≤ i → i < attempt + fuel → statusOf (resp i) = some 429) →
      azure_nerLoop resp d attempt fuel =
        ⟨none, if fuel = 0 then none else some "Rate limit: 429".toList, fuel,
          (List.range fuel).map (fun j => d * (attempt + j + 1))⟩ := by
  intro fuel
  induction fuel with
  | zero => intro attempt _; rfl
  | succ fuel ih =>
    intro attempt h
    have h0 : statusOf (resp attempt) = some 429 := h attempt le_rfl (by omega)
    cases hr : resp attempt with
    | netError m => rw [hr] at h0; simp [statusOf] at h0
    | http st es =>
      rw [hr] at h0
      simp only [statusOf, Option.some.injEq] at h0
      subst h0
      rw [azure_nerLoop]
      simp only [hr]
      rw [if_pos trivial]
      rw [ih (attempt + 1) (fun i h1 h2 => h i (by omega) (by omega))]
      rw [if_neg (show ¬(429 < 400) by omega)]
      simp only [NerLoopOut.mk.injEq]
      refine ⟨trivial, ?_, trivial, ?_⟩
      · by_cases hf : fuel = 0 <;> simp [hf]
      · rw [List.range_succ_eq_map, List.map_cons, List.map_map]
        refine congrArg₂ List.cons (by congr 1 <;> omega) (List.map_congr_left ?_)
        intro j _
        simp only [Function.comp_apply]
        congr 1 <;> omega

theorem azure_nerLoop_all_netError (resp : Nat → NerResponse) (d : Nat)
    (m : List Char) (hb : ∀ i, resp i = NerResponse.netError m) :
    ∀ (fuel attempt : Nat),
      (azure_nerLoop resp d attempt fuel).result = none ∧
      (azure_nerLoop resp d attempt fuel).calls = fuel := by
  intro fuel
  induction fuel with
  | zero => intro attempt; exact ⟨rfl, rfl⟩
  | succ fuel ih =>
    intro attempt
    rw [azure_nerLoop, hb attempt]
    exact ⟨(ih (attempt + 1)).1, by simp [(ih (attempt + 1)).2]⟩

/-- **C6.**  `azure_ner` policy: with absent credentials it returns an empty
entity list with zero HTTP calls, never failing; configured, a run of 429
responses is retried with sleeps `delay * attempt` (1-based) until the fixed
budget is spent, after which it fails; any other non-success status makes
the loop stop at once — one more call, no further sleeps — and the failure
is surfaced; configured but unreachable (every attempt raising a request
exception), it fails hard after `max_retries` requests. -/
theorem azure_ner_retry_policy :
    (∀ (cfg : NerConfig) (resp : Nat → NerResponse) (maxR d : Nat),
      (falsyOpt cfg.endpoint = true ∨ falsyOpt cfg.key = true) →
      azure_ner cfg resp maxR d = (Except.ok [], 0)) ∧
    (∀ (resp : Nat → NerResponse) (maxR d : Nat),
      (∀ i, i < maxR → statusOf (resp i) = some 429) → 0 < maxR →
      azure_nerLoop resp d 0 maxR =
        ⟨none, some "Rate limit: 429".toList, maxR,
          (List.range maxR).map (fun j => d * (j + 1))⟩) ∧
    (∀ (cfg : NerConfig) (resp : Nat → NerResponse) (maxR d : Nat),
      falsyOpt cfg.endpoint = false → falsyOpt cfg.key = false →
      (∀ i, i < maxR → statusOf (resp i) = some 429) → 0 < maxR →
      azure_ner cfg resp maxR d =
        (Except.error ("Azure NER failed after all retries: ".toList ++
          "Rate limit: 429".toList), maxR)) ∧
    (∀ (resp : Nat → NerResponse) (d attempt fuel st : Nat) (es : List Entity),
      400 ≤ st → st ≠ 429 → resp attempt = NerResponse.http st es →
      azure_nerLoop resp d attempt (fuel + 1) =
        ⟨none, some ("HTTP ".toList ++ natChars st), 1, []⟩) ∧
    (∀ (cfg : NerConfig) (resp : Nat → NerResponse) (maxR d st : Nat)
        (es : List Entity),
      falsyOpt cfg.endpoint = false → falsyOpt cfg.key = false →
      400 ≤ st → st ≠ 429 → resp 0 = NerResponse.http st es → 0 < maxR →
      azure_ner cfg resp maxR d =
        (Except.error ("Azure NER failed after all retries: ".toList ++
          ("HTTP ".toList ++ natChars st)), 1)) ∧
    (∀ (cfg : NerConfig) (resp : Nat → NerResponse) (maxR d : Nat) (m : List Char),
      falsyOpt cfg.endpoint = false → falsyOpt cfg.key = false →
      (∀ i, resp i = NerResponse.netError m) →
      exceptIsOk (azure_ner cfg resp maxR d).1 = false ∧
      (azure_ner cfg resp maxR d).2 = maxR) := by
  have hstep : ∀ (resp : Nat → NerResponse) (d attempt fuel st : Nat)
      (es : List Entity), 400 ≤ st → st ≠ 429 →
      resp attempt = NerResponse.http st es →
      azure_nerLoop resp d attempt (fuel + 1) =
        ⟨none, some ("HTTP ".toList ++ natChars st), 1, []⟩ := by
    intro resp d attempt fuel st es hge hne hr
    rw [azure_nerLoop, hr]
    have h1 : ¬(st < 400) := by omega
    simp [h1, hne]
  refine ⟨?_, ?_, ?_, hstep, ?_, ?_⟩
  · intro cfg resp maxR d h
    rcases h with h | h <;> simp [azure_ner, h]
  · intro resp maxR d h hpos
    rw [azure_nerLoop_all_429 resp d maxR 0 (fun i h1 h2 => h i (by omega))]
    simp [Nat.pos_iff_ne_zero.mp hpos]
  · intro cfg resp maxR d hce hck h hpos
    rw [azure_ner]
    simp only [hce, hck, Bool.or_self, Bool.false_eq_true, if_false]
    rw [azure_nerLoop_all_429 resp d maxR 0 (fun i h1 h2 => h i (by omega))]
    simp [Nat.pos_iff_ne_zero.mp hpos, Option.getD]
  · intro cfg resp maxR d st es hce hck hge hne hr hpos
    obtain ⟨fuel, rfl⟩ := Nat.exists_eq_succ_of_ne_zero (Nat.pos_iff_ne_zero.mp hpos)
    rw [azure_ner]
    simp only [hce, hck, Bool.or_self, Bool.false_eq_true, if_false]
    rw [hstep resp d 0 fuel st es hge hne hr]
    rfl
  · intro cfg resp maxR d m hce hck hb
    rw [azure_ner]
    simp only [hce, hck, Bool.or_self, Bool.false_eq_true, if_false]
    obtain ⟨h1, h2⟩ := azure_nerLoop_all_netError resp d m hb maxR 0
    rw [h1]
    exact ⟨rfl, h2⟩

/-- Witness for C6: unconfigured credentials short-circuit to an empty entity
list with zero HTTP calls. -/
theorem azure_ner_retry_policy_witness :
    azure_ner ⟨none, some "k".toList⟩ (fun _ => NerResponse.http 200 []) 3 1 =
      (Except.ok [], 0) :=
  azure_ner_retry_policy.1 ⟨none, some "k".toList⟩
    (fun _ => NerResponse.http 200 []) 3 1 (Or.inl (by decide))

/-! ## Claim C8: properties of the cleaning passes

The character filter runs after whitespace collapsing, so deleting a
disallowed character can fuse two single spaces into a double space; the
whitespace-shape guarantees therefore only hold for inputs the filter
leaves untouched. -/

theorem mem_collapseWsAux (l : List Char) :
    ∀ (b : Bool) (c : Char), c ∈ collapseWsAux b l → c ∈ l ∨ c = ' ' := by
  induction l with
  | nil => intro b c h; simp [collapseWsAux] at h
  | cons a as ih =>
    intro b c h
    rw [collapseWsAux] at h
    by_cases ha : isPySpace a = true
    · rw [if_pos ha] at h
      cases b with
      | true =>
        rcases ih true c h with h1 | h1
        · exact Or.inl (List.mem_cons_of_mem a h1)
        · exact Or.inr h1
      | false =>
        rw [if_neg (by simp)] at h
        rcases List.mem_cons.mp h with h1 | h1
        · exact Or.inr h1
        · rcases ih true c h1 with h2 | h2
          · exact Or.inl (List.mem_cons_of_mem a h2)
          · exact Or.inr h2
    · rw [if_neg ha] at h
      rcases List.mem_cons.mp h with h1 | h1
      · exact Or.inl (h1 ▸ List.mem_cons_self a as)
      · rcases ih false c h1 with h2 | h2
        · exact Or.inl (List.mem_cons_of_mem a h2)
        · exact Or.inr h2

theorem headWs_collapseWsAux_true (l : List Char) :
    headWs (collapseWsAux true l) = false := by
  induction l with
  | nil => rfl
  | cons a as ih =>
    rw [collapseWsAux]
    by_cases ha : isPySpace a = true
    · rw [if_pos ha, if_pos rfl]; exact ih
    · rw [if_neg ha]; simpa [headWs] using ha

theorem headWs_collapseWsAux_false (m : List Char) (hm : headWs m = false) :
    headWs (collapseWsAux false m) = false := by
  cases m with
  | nil => rfl
  | cons a as =>
    have ha : isPySpace a = false := hm
    rw [collapseWsAux, if_neg (by simp [ha])]
    exact ha

theorem noTwoWs_cons (c : Char) (rest : List Char) :
    noTwoWs (c :: rest) = (!(isPySpace c && headWs rest) && noTwoWs rest) := by
  cases rest with
  | nil => simp [noTwoWs, headWs]
  | cons d r => rfl

theorem noTwoWs_collapseWsAux (l : List Char) :
    ∀ b, noTwoWs (collapseWsAux b l) = true := by
  induction l with
  | nil => intro b; rfl
  | cons a as ih =>
    intro b
    rw [collapseWsAux]
    by_cases ha : isPySpace a = true
    · rw [if_pos ha]
      cases b with
      | true => exact ih true
      | false =>
        rw [if_neg (by simp), noTwoWs_cons]
        simp [headWs_collapseWsAux_true, ih true]
    · rw [if_neg ha, noTwoWs_cons]
      have ha2 : isPySpace a = false := by simpa using ha
      simp [ha2, ih false]

theorem lastWs_singleton (c : Char) : lastWs [c] = isPySpace c := rfl

theorem lastWs_cons (c : Char) (cs : List Char) (h : cs ≠ []) :
    lastWs (c :: cs) = lastWs cs := by
  cases cs with
  | nil => exact absurd rfl h
  | cons d r => simp [lastWs, List.getLast?_cons_cons]

theorem collapseWsAux_ne_nil (l : List Char) :
    ∀ b, lastWs l = false → l ≠ [] → collapseWsAux b l ≠ [] := by
  induction l with
  | nil => intro b _ h; exact absurd rfl h
  | cons a as ih =>
    intro b hlast _
    rw [collapseWsAux]
    by_cases ha : isPySpace a = true
    · have has : as ≠ [] := by
        intro he; subst he
        rw [lastWs_singleton, ha] at hlast
        simp at hlast
      have hlast2 : lastWs as = false := by
        rw [lastWs_cons a as has] at hlast; exact hlast
      rw [if_pos ha]
      cases b with
      | true => exact ih true hlast2 has
      | false => rw [if_neg (by simp)]; exact List.cons_ne_nil _ _
    · rw [if_neg ha]; exact List.cons_ne_nil _ _

theorem lastWs_collapseWsAux (l : List Char) :
    ∀ b, lastWs l = false → lastWs (collapseWsAux b l) = false := by
  induction l with
  | nil => intro b _; rfl
  | cons a as ih =>
    intro b hlast
    by_cases has : as = []
    · subst has
      rw [lastWs_singleton] at hlast
      rw [collapseWsAux, if_neg (by simp [hlast])]
      rw [collapseWsAux, lastWs_singleton]
      exact hlast
    · have hlast2 : lastWs as = false := by
        rw [lastWs_cons a as has] at hlast; exact hlast
      rw [collapseWsAux]
      by_cases ha : isPySpace a = true
      · rw [if_pos ha]
        cases b with
        | true => exact ih true hlast2
        | false =>
          rw [if_neg (by simp)]
          have hne := collapseWsAux_ne_nil as true hlast2 has
          rw [lastWs_cons ' ' _ hne]
          exact ih true hlast2
      · rw [if_neg ha]
        have hne := collapseWsAux_ne_nil as false hlast2 has
        rw [lastWs_cons a _ hne]
        exact ih false hlast2

theorem headWs_dropWhile (l : List Char) :
    headWs (l.dropWhile isPySpace) = false := by
  induction l with
  | nil => rfl
  | cons a as ih =>
    rw [List.dropWhile_cons]
    by_cases ha : isPySpace a = true
    · simp [ha, ih]
    · simp only [ha, if_false]
      simpa [headWs] using ha

theorem headWs_of_isPrefix (m l2 : List Char) (h : List.IsPrefix m l2)
    (hl : headWs l2 = false) : headWs m = false := by
  cases m with
  | nil => rfl
  | cons c cs =>
    obtain ⟨t, ht⟩ := h
    rw [← ht, List.cons_append] at hl
    exact hl

theorem headWs_stripPy (l : List Char) : headWs (stripPy l) = false :=
  headWs_of_isPrefix _ _
    (List.rdropWhile_prefix isPySpace (l.dropWhile isPySpace))
    (headWs_dropWhile l)

theorem lastWs_stripPy (l : List Char) : lastWs (stripPy l) = false := by
  by_cases hne : (l.dropWhile isPySpace).rdropWhile isPySpace = []
  · rw [stripPy, hne]; rfl
  · rw [stripPy, lastWs, List.getLast?_eq_getLast_of_ne_nil hne]
    simpa using List.rdropWhile_last_not isPySpace (l.dropWhile isPySpace) hne

theorem mem_stripPy (l : List Char) (c : Char) (h : c ∈ stripPy l) : c ∈ l := by
  have h1 : c ∈ l.dropWhile isPySpace :=
    (List.rdropWhile_prefix isPySpace (l.dropWhile isPySpace)).sublist.subset h
  exact (List.dropWhile_sublist isPySpace).subset h1

theorem cleaned_filter_id (al : Char → Bool) (hsp : al ' ' = true)
    (l : List Char) (h : ∀ c ∈ l, al c = true) :
    (collapseWs (stripPy l)).filter al = collapseWs (stripPy l) := by
  refine List.filter_eq_self.mpr ?_
  intro c hc
  rcases mem_collapseWsAux (stripPy l) false c hc with h1 | h1
  · exact h c (mem_stripPy l c h1)
  · rw [h1]; exact hsp

/-- **C8 counterexample.**  The claim asserts the cleaned output never has
two consecutive whitespace characters, for every input; but cleaning
`"a § b"` deletes the disallowed section sign after the whitespace was
collapsed, yielding `"a  b"` with two consecutive spaces. -/
theorem clean_text_whitespace_counterexample :
    clean_text "a § b".toList = "a  b".toList ∧
    noTwoWs (clean_text "a § b".toList) = false := by
  constructor <;> decide

/-- **C8 (amended).**  Every character of a cleaned output is in the declared
allow-list (for both cleaners); and for inputs all of whose characters are
already in the allow-list (so the character filter deletes nothing), the
cleaned output additionally has no two consecutive whitespace characters
and no leading or trailing whitespace. -/
theorem clean_text_allowlist_and_whitespace (l : List Char) :
    (∀ c ∈ clean_text l, allowMain c = true) ∧
    (∀ c ∈ clean_text_csv l, allowCsv c = true) ∧
    ((∀ c ∈ l, allowMain c = true) →
      noTwoWs (clean_text l) = true ∧ headWs (clean_text l) = false ∧
        lastWs (clean_text l) = false) ∧
    ((∀ c ∈ l, allowCsv c = true) →
      noTwoWs (clean_text_csv l) = true ∧ headWs (clean_text_csv l) = false ∧
        lastWs (clean_text_csv l) = false) := by
  refine ⟨?_, ?_, ?_, ?_⟩
  · intro c hc; exact List.of_mem_filter hc
  · intro c hc; exact List.of_mem_filter hc
  · intro h
    rw [clean_text, cleaned_filter_id allowMain (by decide) l h, collapseWs]
    exact ⟨noTwoWs_collapseWsAux _ false,
      headWs_collapseWsAux_false _ (headWs_stripPy l),
      lastWs_collapseWsAux _ false (lastWs_stripPy l)⟩
  · intro h
    rw [clean_text_csv, cleaned_filter_id allowCsv (by decide) l h, collapseWs]
    exact ⟨noTwoWs_collapseWsAux _ false,
      headWs_collapseWsAux_false _ (headWs_stripPy l),
      lastWs_collapseWsAux _ false (lastWs_stripPy l)⟩

/-- Witness for C8 (amended) on the all-allowed input `"ab  cd "`. -/
theorem clean_text_allowlist_and_whitespace_witness :
    noTwoWs (clean_text "ab  cd ".toList) = true ∧
    lastWs (clean_text "ab  cd ".toList) = false :=
  ⟨((clean_text_allowlist_and_whitespace "ab  cd ".toList).2.2.1 (by decide)).1,
   ((clean_text_allowlist_and_whitespace "ab  cd ".toList).2.2.1 (by decide)).2.2⟩

/-! ## Claim C10: single-text extractors vs chunked extractors -/

/-- **C10 counterexample.**  The claim says every CSV/JSON/image input yields
exactly one chunk after normalization regardless of length; but an image
whose OCR text is empty yields an extraction record with empty `text`, which
normalizes to zero chunks. -/
theorem single_text_extractors_counterexample :
    get_chunks (extract_image_result []) = [] ∧
    (get_chunks (extract_image_result [])).length ≠ 1 := by
  constructor <;> decide

/-- **C10 (amended).**  The CSV, JSON and image extractors return a record
with a single `text` string and never a `text_chunks` sequence, so after
normalization the whole document is at most one chunk — exactly one holding
the full cleaned text when it is non-empty (regardless of its length), and
zero when it is empty; the fixed-window chunking is applied only by the
text, PDF and DOCX extractors. -/
theorem single_text_extractors (rendered pretty raw : List Char)
    (paragraphs : List (List Char)) (c : Nat) :
    (extract_csv_result rendered).text_chunks = none ∧
    (extract_json_result pretty).text_chunks = none ∧
    (extract_image_result raw).text_chunks = none ∧
    (get_chunks (extract_csv_result rendered)).length ≤ 1 ∧
    (get_chunks (extract_json_result pretty)).length ≤ 1 ∧
    (get_chunks (extract_image_result raw)).length ≤ 1 ∧
    (clean_text_csv rendered ≠ [] →
      get_chunks (extract_csv_result rendered) = [clean_text_csv rendered]) ∧
    (clean_text_csv pretty ≠ [] →
      get_chunks (extract_json_result pretty) = [clean_text_csv pretty]) ∧
    (clean_text raw ≠ [] →
      get_chunks (extract_image_result raw) = [clean_text raw]) ∧
    (extract_text_result raw c).text_chunks =
      some (chunkSplit c (clean_text raw)) ∧
    (extract_pdf_result paragraphs c).text_chunks =
      some (chunkSplit c (clean_text paragraphs.flatten)) ∧
    (extract_docx_result paragraphs c).text_chunks =
      some (chunkSplit c (clean_text (List.intercalate [' ']
        (paragraphs.filter (fun p => !(stripPy p).isEmpty))))) := by
  have hone : ∀ t : List Char, (get_chunks ⟨none, some t⟩).length ≤ 1 := by
    intro t
    by_cases ht : t = [] <;> simp [get_chunks, ht]
  have htext : ∀ t : List Char, t ≠ [] → get_chunks ⟨none, some t⟩ = [t] := by
    intro t ht
    simp [get_chunks, ht]
  exact ⟨rfl, rfl, rfl, hone _, hone _, hone _,
    fun h => htext _ h, fun h => htext _ h, fun h => htext _ h,
    rfl, rfl, rfl⟩

/-- Witness for C10 (amended): a two-character OCR text normalizes to the
single chunk holding the whole cleaned text. -/
theorem single_text_extractors_witness :
    get_chunks (extract_image_result "hi".toList) = [clean_text "hi".toList] :=
  (single_text_extractors [] [] "hi".toList [] 1).2.2.2.2.2.2.2.2.1 (by decide)

end AceSpace
